import Mathlib

/- Verification of the download-worker core of the DCMD application (src/app.py).

   The embedding models the pure logic of the source: error-text sanitization
   (clean_err and its ANSI regex), the watch-URL predicate (is_youtube_watch),
   the progress-hook normalization (Downloader._hook), and the job driver
   (Downloader.run) for both the audio and the video kind, with the external
   yt-dlp client abstracted as an oracle describing, per invocation, the
   progress payloads it delivers and whether it returns a filename or raises.
   Machine reals (Python floats) are modelled as exact rationals. -/

set_option maxHeartbeats 1000000

/-- ESC, the first character of an ANSI color escape. -/
def escChar : Char := '\x1b'

/-- One step of the regex tail: [0-9;]* followed by a literal m
    (the tail of the source pattern ANSI_RE = \x1b\[[0-9;]*m). -/
def paramsM : List Char → Bool
  | [] => false
  | c :: r => if c = 'm' then true else if c.isDigit ∨ c = ';' then paramsM r else false

/-- Whether ANSI_RE matches at the beginning of the list. -/
def startsAnsi : List Char → Bool
  | c1 :: c2 :: r => if c1 = escChar ∧ c2 = '[' then paramsM r else false
  | _ => false

/-- Whether ANSI_RE matches anywhere in the list. -/
def hasAnsi : List Char → Bool
  | [] => false
  | c :: r => startsAnsi (c :: r) || hasAnsi r

/-- Scanner state for the single left-to-right pass of re.sub with ANSI_RE:
    either scanning plainly, or having consumed ESC, or inside the
    parameter bytes after ESC [ (stored reversed). -/
inductive ScanSt
  | start
  | sawEsc
  | inParams (ps : List Char)

/-- One left-to-right pass removing every non-overlapping match of ANSI_RE,
    exactly as re.sub("" , msg) does: on a failed partial match the consumed
    characters are flushed verbatim and scanning resumes at the failing
    character. -/
def ansiGo : ScanSt → List Char → List Char
  | ScanSt.start, [] => []
  | ScanSt.sawEsc, [] => [escChar]
  | ScanSt.inParams ps, [] => escChar :: '[' :: ps.reverse
  | ScanSt.start, c :: r =>
      if c = escChar then ansiGo ScanSt.sawEsc r else c :: ansiGo ScanSt.start r
  | ScanSt.sawEsc, c :: r =>
      if c = '[' then ansiGo (ScanSt.inParams []) r
      else escChar :: (if c = escChar then ansiGo ScanSt.sawEsc r else c :: ansiGo ScanSt.start r)
  | ScanSt.inParams ps, c :: r =>
      if c = 'm' then ansiGo ScanSt.start r
      else if c.isDigit ∨ c = ';' then ansiGo (ScanSt.inParams (c :: ps)) r
      else (escChar :: '[' :: ps.reverse) ++
        (if c = escChar then ansiGo ScanSt.sawEsc r else c :: ansiGo ScanSt.start r)

/-- clean_err from src/app.py: strip ANSI color escapes (total; the source
    wraps the substitution in try/except so it never raises). -/
def clean_err (msg : String) : String := String.mk (ansiGo ScanSt.start msg.data)

/-- pat is a prefix of the second list. -/
def startsWithList : List Char → List Char → Bool
  | [], _ => true
  | _ :: _, [] => false
  | a :: as, b :: bs => if a = b then startsWithList as bs else false

/-- Python substring containment: pat occurs contiguously in the list. -/
def substrOf (pat : List Char) : List Char → Bool
  | [] => startsWithList pat []
  | c :: r => startsWithList pat (c :: r) || substrOf pat r

/-- Python `sub in s` on strings. -/
def strContains (s sub : String) : Bool := substrOf sub.data s.data

/-- is_youtube_watch from src/app.py. -/
def is_youtube_watch (url : String) : Bool :=
  strContains url "youtube.com/watch" || strContains url "youtu.be/"

/-- Last index of a character in a list (Python str.rfind, as an Option). -/
def lastIdxOf (l : List Char) (c : Char) : Option Nat :=
  match l.reverse.findIdx? (fun x => x == c) with
  | some j => some (l.length - 1 - j)
  | none => none

/-- os.path.splitext (POSIX rules, as used by the source on the output
    filename): split off the final extension; dots that only lead the
    basename never start an extension. -/
def splitext (p : String) : String × String :=
  let l := p.data
  let fi : Nat :=
    match lastIdxOf l '/' with
    | some s => s + 1
    | none => 0
  match lastIdxOf l '.' with
  | none => (p, "")
  | some di =>
    if fi ≤ di then
      if ((l.drop fi).take (di - fi)).any (fun ch => ch != '.') then
        (String.mk (l.take di), String.mk (l.drop di))
      else (p, "")
    else (p, "")

/-- Fixed message of the cancellation error raised inside the hook
    (RuntimeError("Cancelado por el usuario") in src/app.py). -/
def cancelMsg : String := "Cancelado por el usuario"

/-- The raw yt-dlp progress-callback payload, restricted to the keys the
    hook reads. Absent keys are none; byte counters are naturals and the
    speed (a Python float) is an exact rational. -/
structure Payload where
  status : Option String
  total_bytes : Option Nat
  total_bytes_estimate : Option Nat
  downloaded_bytes : Option Nat
  speed : Option ℚ
  eta : Option Nat
deriving DecidableEq, Repr

/-- Events a job emits: the three Qt signals of Downloader. -/
inductive Event
  | progress (pct : ℚ) (msg : String)
  | done (path : String)
  | failed (msg : String)
deriving DecidableEq, Repr

/-- done and failed are the terminal signals; progress is not. -/
def Event.isTerminal : Event → Bool
  | Event.progress _ _ => false
  | Event.done _ => true
  | Event.failed _ => true

/-- Python truthiness filter on an optional byte count: 0 and None are falsy. -/
def optTruthyNat : Option Nat → Option Nat
  | some n => if n = 0 then none else some n
  | none => none

/-- d.get("total_bytes") or d.get("total_bytes_estimate") or 0. -/
def pyTotal (d : Payload) : Nat :=
  match optTruthyNat d.total_bytes with
  | some n => n
  | none =>
    match optTruthyNat d.total_bytes_estimate with
    | some n => n
    | none => 0

/-- d.get("downloaded_bytes") or 0. -/
def pyGot (d : Payload) : Nat := (d.downloaded_bytes).getD 0

/-- Truthiness of d.get("speed"): present and nonzero. -/
def speedTruthy (d : Payload) : Bool :=
  match d.speed with
  | some s => decide (s ≠ 0)
  | none => false

/-- Truthiness of d.get("eta"): present and nonzero. -/
def etaTruthy (d : Payload) : Bool :=
  match d.eta with
  | some e => decide (e ≠ 0)
  | none => false

/-- Round to the nearest integer, ties to even (Python float formatting,
    idealized over exact rationals). -/
def roundHalfEven (q : ℚ) : ℤ :=
  let f := ⌊q⌋
  let r := q - f
  if r < 1 / 2 then f
  else if 1 / 2 < r then f + 1
  else if f % 2 = 0 then f else f + 1

/-- Python f"{q:.1f}": one decimal digit, half-even rounding. -/
def fmt1 (q : ℚ) : String :=
  let t := roundHalfEven (q * 10)
  let s := if t < 0 then "-" else ""
  let a := t.natAbs
  s ++ toString (a / 10) ++ "." ++ toString (a % 10)

/-- The local pct of Downloader._hook:
    pct = (got/total*100.0) if total else 0.0. -/
def pyPct (d : Payload) : ℚ :=
  if pyTotal d ≠ 0 then (pyGot d : ℚ) / (pyTotal d : ℚ) * 100 else 0

/-- The local txt of Downloader._hook: the percent, then the speed in KiB/s
    when truthy, then the ETA in seconds when truthy. -/
def pyTxt (d : Payload) : String :=
  let txt := fmt1 (pyPct d) ++ "%"
  let txt := if speedTruthy d then txt ++ " • " ++ fmt1 ((d.speed).getD 0 / 1024) ++ " KiB/s" else txt
  if etaTruthy d then txt ++ " • ETA " ++ toString ((d.eta).getD 0) ++ "s" else txt

/-- Downloader._hook from src/app.py, for one flag observation: with the
    cancellation flag set it raises (error) before reading the payload;
    otherwise it emits the normalized progress events for this payload. -/
def hook (stop : Bool) (d : Payload) : Except String (List Event) :=
  if stop then Except.error cancelMsg
  else if d.status = some "downloading" then
    Except.ok [Event.progress (pyPct d) (pyTxt d)]
  else if d.status = some "finished" then
    Except.ok [Event.progress 100 "Procesando…"]
  else Except.ok []

/-- One invocation of the external yt-dlp client, as the job observes it:
    the progress payloads it delivers to the hook, in order, and then
    either the output filename (prepare_filename of the extracted info)
    or the text of the exception it raises. -/
structure CallSpec where
  payloads : List Payload
  result : Except String String

/-- Feed the payloads of one client call through the hook. The flag is an
    arbitrary boolean sequence sampled at each global hook invocation
    (index i), since the UI may set it at any time. A hook error aborts
    the call; the triple is (events emitted, next index, hook error). -/
def processHooks (stopSeq : Nat → Bool) : Nat → List Payload → List Event × Nat × Option String
  | i, [] => ([], i, none)
  | i, d :: ds =>
    match hook (stopSeq i) d with
    | Except.error e => ([], i + 1, some e)
    | Except.ok evs =>
      let t := processHooks stopSeq (i + 1) ds
      (evs ++ t.1, t.2.1, t.2.2)

/-- Run one client call: a hook exception propagates out of extract_info,
    otherwise the call returns the client's own result. -/
def runClient (stopSeq : Nat → Bool) (i : Nat) (c : CallSpec) : List Event × Nat × Except String String :=
  let t := processHooks stopSeq i c.payloads
  (t.1, t.2.1, match t.2.2 with
    | some e => Except.error e
    | none => c.result)

/-- The external collaborators of one run: the audio-kind client call, the
    video-kind client call for each format selector, and the filesystem
    os.path.exists predicate. -/
structure Oracle where
  audioCall : CallSpec
  videoCall : String → CallSpec
  fex : String → Bool

/-- The extension candidates the audio branch checks on disk, in source
    order: intended mp3 target first, then m4a, then webm. -/
def audioExts : List String := [".mp3", ".m4a", ".webm"]

/-- The audio branch of Downloader.run: one client call with the fixed
    bestaudio selector, then locate the post-processed file among the
    known extensions, else fall back to the raw filename; any exception
    becomes a failed signal with the cleaned text. -/
def runAudio (stopSeq : Nat → Bool) (c : CallSpec) (fex : String → Bool) : List Event :=
  let r := runClient stopSeq 0 c
  match r.2.2 with
  | Except.error e => r.1 ++ [Event.failed (clean_err e)]
  | Except.ok filename =>
    let base := (splitext filename).1
    match audioExts.find? (fun ext => fex (base ++ ext)) with
    | some ext => r.1 ++ [Event.done (base ++ ext)]
    | none => r.1 ++ [Event.done filename]

/-- The declared video format selectors, in source order. -/
def format_candidates : List String :=
  ["bestvideo[ext=mp4]+bestaudio[ext=m4a]/best[ext=mp4]",
   "bv[height<=1080][ext=mp4]+ba[ext=m4a]/b[ext=mp4]",
   "bv*+ba/b", "best"]

/-- The error classification of the video loop: "403" or
    "Requested format is not available" as substrings mean one more
    candidate may be tried. -/
def retryableErr (e : String) : Bool :=
  strContains e "403" || strContains e "Requested format is not available"

/-- The video fallback loop of Downloader.run: try each format selector in
    order; on success normalize to the .mp4 path when it exists on disk and
    signal done; on a retryable error remember it and continue; on any other
    error signal failed at once; when every candidate is exhausted signal
    failed with the last error (or the generic message). Returns the
    attempted selectors and the emitted events. -/
def runVideoLoop (stopSeq : Nat → Bool) (client : String → CallSpec) (fex : String → Bool) :
    Nat → Option String → List String → List String × List Event
  | _, last, [] =>
    ([], [Event.failed (clean_err (last.getD "No fue posible descargar el vídeo."))])
  | i, _, fmt :: rest =>
    let r := runClient stopSeq i (client fmt)
    match r.2.2 with
    | Except.ok filename =>
      let base := (splitext filename).1
      let final := if fex (base ++ ".mp4") then base ++ ".mp4" else filename
      ([fmt], r.1 ++ [Event.done final])
    | Except.error e =>
      if retryableErr e then
        let t := runVideoLoop stopSeq client fex r.2.1 (some e) rest
        (fmt :: t.1, r.1 ++ t.2)
      else ([fmt], r.1 ++ [Event.failed (clean_err e)])

/-- Downloader.run from src/app.py: the audio branch for kind "audio",
    the video fallback loop for every other kind. -/
def Downloader.run (stopSeq : Nat → Bool) (kind : String) (o : Oracle) : List Event :=
  if kind = "audio" then runAudio stopSeq o.audioCall o.fex
  else (runVideoLoop stopSeq o.videoCall o.fex 0 none format_candidates).2

/-- Main._ensure_selected from src/app.py: the adopted selection URL, or
    (Python or on a possibly empty string) the currently displayed page
    URL; accepted only when the watch predicate holds. -/
def ensure_selected (selUrl webUrl : String) : Option String :=
  let url := if selUrl = "" then webUrl else selUrl
  if is_youtube_watch url then some url else none

/-- Outcome of a download request in Main.on_download. -/
inductive DlDecision
  | refusedNoSelection
  | refusedBusy
  | started (url : String)
deriving DecidableEq, Repr

/-- Main.on_download from src/app.py: refuse when no valid URL resolves,
    refuse when a download is already running, otherwise start the worker
    on the resolved URL. -/
def on_download (selUrl webUrl : String) (running : Bool) : DlDecision :=
  match ensure_selected selUrl webUrl with
  | none => DlDecision.refusedNoSelection
  | some url => if running then DlDecision.refusedBusy else DlDecision.started url

/-- Spec side, §4.3: the known total of a payload — the exact byte total
    when present and nonzero, else the estimated total when present and
    nonzero, else unknown ("known" read as Python-truthy, as the spec's
    "if a total is known" is implemented by `or`-chaining). -/
def spec_known_total (d : Payload) : Option Nat :=
  match optTruthyNat d.total_bytes with
  | some n => some n
  | none => optTruthyNat d.total_bytes_estimate

/-- Spec side, §4.3: percent = downloaded/total * 100 if a total is known,
    else 0. -/
def spec_percent (d : Payload) : ℚ :=
  match spec_known_total d with
  | some t => (pyGot d : ℚ) / (t : ℚ) * 100
  | none => 0

/-- Spec side, §4.3: the message combines the percent, the transfer speed
    in KiB/s rounded to one decimal when available, and the ETA in seconds
    when available. -/
def spec_message (d : Payload) : String :=
  fmt1 (spec_percent d) ++ "%" ++
  (if speedTruthy d then " • " ++ fmt1 ((d.speed).getD 0 / 1024) ++ " KiB/s" else "") ++
  (if etaTruthy d then " • ETA " ++ toString ((d.eta).getD 0) ++ "s" else "")

/-- Exactly one terminal event, and it closes the trace: every event
    before it is a progress event. -/
def OneTerminalLast (evs : List Event) : Prop :=
  ∃ pre e, evs = pre ++ [e] ∧ e.isTerminal = true ∧ ∀ x ∈ pre, x.isTerminal = false

/-- The client call a run reaches first: the audio call for kind "audio",
    the first format candidate's call otherwise. -/
def firstCall (kind : String) (o : Oracle) : CallSpec :=
  if kind = "audio" then o.audioCall else o.videoCall (format_candidates.getD 0 "")

/-- A call whose client outcome is an error classified as retryable. -/
def retryableCall (c : CallSpec) : Bool :=
  match c.result with
  | Except.error e => retryableErr e
  | Except.ok _ => false

/-- A call whose client outcome is a success. -/
def okCall (c : CallSpec) : Bool :=
  match c.result with
  | Except.ok _ => true
  | Except.error _ => false

theorem hasAnsi_cons_false {c : Char} {r : List Char} (h : hasAnsi (c :: r) = false) :
    startsAnsi (c :: r) = false ∧ hasAnsi r = false := by
  have hh : (startsAnsi (c :: r) || hasAnsi r) = false := h
  simpa [Bool.or_eq_false_iff] using hh

theorem ansi_master : ∀ (n : Nat) (r : List Char), r.length ≤ n →
    (hasAnsi r = false → ansiGo ScanSt.start r = r) ∧
    (hasAnsi (escChar :: r) = false → ansiGo ScanSt.sawEsc r = escChar :: r) ∧
    (∀ ps : List Char, hasAnsi r = false → paramsM r = false →
      ansiGo (ScanSt.inParams ps) r = escChar :: '[' :: (ps.reverse ++ r)) := by
  intro n
  induction n with
  | zero =>
    intro r hr
    have hr0 : r = [] := List.eq_nil_of_length_eq_zero (Nat.le_zero.mp hr)
    subst hr0
    refine ⟨fun _ => rfl, fun _ => rfl, fun ps _ _ => ?_⟩
    simp [ansiGo]
  | succ n ih =>
    intro r hr
    cases r with
    | nil =>
      refine ⟨fun _ => rfl, fun _ => rfl, fun ps _ _ => ?_⟩
      simp [ansiGo]
    | cons c r2 =>
      have hr2 : r2.length ≤ n := by
        simp only [List.length_cons] at hr
        omega
      refine ⟨?_, ?_, ?_⟩
      · -- plain scanning
        intro hna
        obtain ⟨hsa, hh⟩ := hasAnsi_cons_false hna
        by_cases hc : c = escChar
        · subst hc
          show ansiGo ScanSt.start (escChar :: r2) = escChar :: r2
          rw [ansiGo, if_pos rfl]
          exact (ih r2 hr2).2.1 hna
        · rw [ansiGo, if_neg hc]
          rw [(ih r2 hr2).1 hh]
      · -- after ESC
        intro hq
        obtain ⟨hq1, hq2⟩ := hasAnsi_cons_false hq
        obtain ⟨hq3, hq4⟩ := hasAnsi_cons_false hq2
        by_cases hc : c = '['
        · subst hc
          rw [ansiGo, if_pos rfl]
          have hpm : paramsM r2 = false := by
            have h5 : (if escChar = escChar ∧ '[' = '[' then paramsM r2 else false) = false := hq1
            simpa using h5
          have h6 := (ih r2 hr2).2.2 [] hq4 hpm
          simpa using h6
        · rw [ansiGo, if_neg hc]
          by_cases hce : c = escChar
          · subst hce
            rw [if_pos rfl]
            rw [(ih r2 hr2).2.1 hq2]
          · rw [if_neg hce]
            rw [(ih r2 hr2).1 hq4]
      · -- inside parameters
        intro ps hra hrp
        obtain ⟨hsa, hh⟩ := hasAnsi_cons_false hra
        by_cases hm : c = 'm'
        · exfalso
          simp [paramsM, hm] at hrp
        · by_cases hd : (c.isDigit ∨ c = ';')
          · have hrp2 : paramsM r2 = false := by
              rw [paramsM, if_neg hm, if_pos hd] at hrp
              exact hrp
            rw [ansiGo, if_neg hm, if_pos hd]
            rw [(ih r2 hr2).2.2 (c :: ps) hh hrp2]
            simp
          · rw [ansiGo, if_neg hm, if_neg hd]
            by_cases hce : c = escChar
            · subst hce
              rw [if_pos rfl]
              rw [(ih r2 hr2).2.1 hra]
              simp
            · rw [if_neg hce]
              rw [(ih r2 hr2).1 hh]
              simp

theorem clean_err_noop_of_hasAnsi_false (s : String) (h : hasAnsi s.data = false) :
    clean_err s = s := by
  cases s with
  | mk l =>
    have h2 := (ansi_master l.length l le_rfl).1 h
    show String.mk (ansiGo ScanSt.start l) = String.mk l
    rw [h2]

theorem hook_false_ok (d : Payload) : ∃ evs, hook false d = Except.ok evs := by
  unfold hook
  rw [if_neg (by simp)]
  by_cases h1 : d.status = some "downloading"
  · rw [if_pos h1]
    exact ⟨_, rfl⟩
  · rw [if_neg h1]
    by_cases h2 : d.status = some "finished"
    · rw [if_pos h2]
      exact ⟨_, rfl⟩
    · rw [if_neg h2]
      exact ⟨_, rfl⟩

theorem hook_ok_progressOnly (stop : Bool) (d : Payload) (evs : List Event)
    (h : hook stop d = Except.ok evs) : ∀ x ∈ evs, x.isTerminal = false := by
  unfold hook at h
  by_cases hs : stop = true
  · rw [if_pos hs] at h
    cases h
  · rw [if_neg hs] at h
    by_cases h1 : d.status = some "downloading"
    · rw [if_pos h1] at h
      obtain rfl : _ = evs := congrArg (fun x => match x with
        | Except.ok v => v
        | Except.error _ => []) h
      intro x hx
      simp only [List.mem_singleton] at hx
      subst hx
      rfl
    · rw [if_neg h1] at h
      by_cases h2 : d.status = some "finished"
      · rw [if_pos h2] at h
        obtain rfl : _ = evs := congrArg (fun x => match x with
          | Except.ok v => v
          | Except.error _ => []) h
        intro x hx
        simp only [List.mem_singleton] at hx
        subst hx
        rfl
      · rw [if_neg h2] at h
        obtain rfl : ([] : List Event) = evs := congrArg (fun x => match x with
          | Except.ok v => v
          | Except.error _ => []) h
        intro x hx
        cases hx

theorem processHooks_progressOnly (stopSeq : Nat → Bool) :
    ∀ (ps : List Payload) (i : Nat), ∀ x ∈ (processHooks stopSeq i ps).1, x.isTerminal = false := by
  intro ps
  induction ps with
  | nil =>
    intro i x hx
    cases hx
  | cons d ds ih =>
    intro i x hx
    rw [processHooks] at hx
    cases hh : hook (stopSeq i) d with
    | error e =>
      rw [hh] at hx
      cases hx
    | ok evs =>
      rw [hh] at hx
      simp only [List.mem_append] at hx
      cases hx with
      | inl h => exact hook_ok_progressOnly _ _ _ hh x h
      | inr h => exact ih (i + 1) x h

theorem processHooks_noCancel (stopSeq : Nat → Bool) (hs : ∀ j, stopSeq j = false) :
    ∀ (ps : List Payload) (i : Nat), (processHooks stopSeq i ps).2.2 = none := by
  intro ps
  induction ps with
  | nil => intro i; rfl
  | cons d ds ih =>
    intro i
    rw [processHooks, hs i]
    obtain ⟨evs, he⟩ := hook_false_ok d
    rw [he]
    exact ih (i + 1)

theorem runClient_noCancel (stopSeq : Nat → Bool) (hs : ∀ j, stopSeq j = false)
    (i : Nat) (c : CallSpec) : (runClient stopSeq i c).2.2 = c.result := by
  show (match (processHooks stopSeq i c.payloads).2.2 with
    | some e => Except.error e
    | none => c.result) = c.result
  rw [processHooks_noCancel stopSeq hs c.payloads i]

theorem runClient_progressOnly (stopSeq : Nat → Bool) (i : Nat) (c : CallSpec) :
    ∀ x ∈ (runClient stopSeq i c).1, x.isTerminal = false := by
  intro x hx
  exact processHooks_progressOnly stopSeq c.payloads i x hx

theorem str_append_empty (s : String) : s ++ "" = s := by
  cases s with
  | mk l =>
    show String.mk (l ++ []) = String.mk l
    rw [List.append_nil]

theorem str_append_assoc (a b c : String) : a ++ b ++ c = a ++ (b ++ c) := by
  cases a with
  | mk la =>
    cases b with
    | mk lb =>
      cases c with
      | mk lc =>
        show String.mk (la ++ lb ++ lc) = String.mk (la ++ (lb ++ lc))
        rw [List.append_assoc]

theorem optTruthyNat_ne_zero {o : Option Nat} {n : Nat} (h : optTruthyNat o = some n) :
    n ≠ 0 := by
  cases o with
  | none => cases h
  | some m =>
    by_cases hm : m = 0
    · simp [optTruthyNat, hm] at h
    · simp [optTruthyNat, hm] at h
      omega

theorem spec_known_total_none (d : Payload) (h : spec_known_total d = none) :
    pyTotal d = 0 := by
  unfold spec_known_total at h
  cases h1 : optTruthyNat d.total_bytes with
  | some n => simp [h1] at h
  | none =>
    simp [h1] at h
    simp [pyTotal, h1, h]

theorem spec_known_total_some (d : Payload) (t : Nat) (h : spec_known_total d = some t) :
    pyTotal d = t ∧ t ≠ 0 := by
  unfold spec_known_total at h
  cases h1 : optTruthyNat d.total_bytes with
  | some n =>
    simp [h1] at h
    subst h
    exact ⟨by simp [pyTotal, h1], optTruthyNat_ne_zero h1⟩
  | none =>
    simp [h1] at h
    exact ⟨by simp [pyTotal, h1, h], optTruthyNat_ne_zero h⟩

/-- The hook's percent is exactly the spec's normalization formula. -/
theorem pyPct_eq_spec_percent (d : Payload) : pyPct d = spec_percent d := by
  unfold pyPct spec_percent
  cases h : spec_known_total d with
  | none =>
    rw [if_neg (by simpa using spec_known_total_none d h)]
  | some t =>
    obtain ⟨h1, h2⟩ := spec_known_total_some d t h
    rw [h1, if_pos (by exact_mod_cast h2)]

/-- The hook's message is exactly the spec's combined message. -/
theorem pyTxt_eq_spec_message (d : Payload) : pyTxt d = spec_message d := by
  unfold pyTxt spec_message
  rw [pyPct_eq_spec_percent]
  cases hs : speedTruthy d with
  | true =>
    cases he : etaTruthy d with
    | true =>
      simp only [Bool.false_eq_true, eq_self_iff_true, if_true, if_false,
        str_append_empty, str_append_assoc]
    | false =>
      simp only [Bool.false_eq_true, eq_self_iff_true, if_true, if_false,
        str_append_empty, str_append_assoc]
  | false =>
    cases he : etaTruthy d with
    | true =>
      simp only [Bool.false_eq_true, eq_self_iff_true, if_true, if_false,
        str_append_empty, str_append_assoc]
    | false =>
      simp only [Bool.false_eq_true, eq_self_iff_true, if_true, if_false,
        str_append_empty, str_append_assoc]

/-- C8: clean_err strips terminal color-escape sequences — on the spec's
    example "\x1b[31mError: 403\x1b[0m" it yields "Error: 403" — and it is
    the identity on every input containing no ANSI color sequence (it is a
    total function, so it never raises). -/
theorem clean_err_spec :
    clean_err "\x1b[31mError: 403\x1b[0m" = "Error: 403" ∧
    ∀ s : String, hasAnsi s.data = false → clean_err s = s := by
  refine ⟨by decide, ?_⟩
  intro s h
  exact clean_err_noop_of_hasAnsi_false s h

/-- C8 witness: the no-op half applied at a concrete escape-free string. -/
theorem clean_err_spec_witness : clean_err "plain text, no escapes" = "plain text, no escapes" :=
  clean_err_spec.2 "plain text, no escapes" (by decide)

/-- C9: the selection-validity predicate accepts the video host's watch
    endpoint and its short-link endpoint, and rejects a bare search-results
    URL. -/
theorem is_youtube_watch_spec :
    is_youtube_watch "https://www.youtube.com/watch?v=abc" = true ∧
    is_youtube_watch "https://youtu.be/abc" = true ∧
    is_youtube_watch "https://www.youtube.com/results?search_query=abc" = false := by
  refine ⟨by decide, by decide, by decide⟩

/-- C10: with an empty selection URL, a download request is not rejected
    outright: the worker is started on the displayed browser-page URL
    whenever that URL passes the watch predicate, and the request is
    refused only when that fallback URL also fails the predicate (no
    download is already running). -/
theorem download_url_fallback (webUrl : String) :
    (is_youtube_watch webUrl = true →
      on_download "" webUrl false = DlDecision.started webUrl) ∧
    (is_youtube_watch webUrl = false →
      on_download "" webUrl false = DlDecision.refusedNoSelection) := by
  constructor
  · intro h
    simp [on_download, ensure_selected, h]
  · intro h
    simp [on_download, ensure_selected, h]

/-- C10 witness: a watch URL starts the worker on it; a search-results URL
    is refused. -/
theorem download_url_fallback_witness :
    on_download "" "https://www.youtube.com/watch?v=xyz" false =
      DlDecision.started "https://www.youtube.com/watch?v=xyz" ∧
    on_download "" "https://www.youtube.com/results?search_query=xyz" false =
      DlDecision.refusedNoSelection :=
  ⟨(download_url_fallback "https://www.youtube.com/watch?v=xyz").1 (by decide),
   (download_url_fallback "https://www.youtube.com/results?search_query=xyz").2 (by decide)⟩

/-- C5: on a downloading payload the hook emits exactly the spec's
    normalization — percent = downloaded/total*100 when a (truthy) total is
    known and 0 otherwise, with the message combining the percent, the
    KiB/s speed rounded to one decimal when available (Python-truthy), and
    the ETA in seconds when available; on a finished payload it emits
    percent 100 with the post-processing message. -/
theorem hook_progress_normalization (d : Payload) :
    (d.status = some "downloading" →
      hook false d = Except.ok [Event.progress (spec_percent d) (spec_message d)]) ∧
    (d.status = some "finished" →
      hook false d = Except.ok [Event.progress 100 "Procesando…"]) := by
  constructor
  · intro h
    simp only [hook, Bool.false_eq_true, if_false, h, if_true, eq_self_iff_true,
      pyPct_eq_spec_percent, pyTxt_eq_spec_message]
  · intro h
    simp [hook, h]

/-- C5 witness payloads: a mid-download payload with exact total, speed and
    ETA, and a finished payload. -/
def wPayloadDl : Payload := ⟨some "downloading", some 200, none, some 100, some 2048, some 3⟩

def wPayloadFin : Payload := ⟨some "finished", none, none, none, none, none⟩

/-- C5 witness: both halves applied at concrete payloads. -/
theorem hook_progress_normalization_witness :
    hook false wPayloadDl =
      Except.ok [Event.progress (spec_percent wPayloadDl) (spec_message wPayloadDl)] ∧
    hook false wPayloadFin = Except.ok [Event.progress 100 "Procesando…"] :=
  ⟨(hook_progress_normalization wPayloadDl).1 rfl,
   (hook_progress_normalization wPayloadFin).2 rfl⟩

/-- The payload refuting the unconditional [0,100] range: a downloading
    payload whose estimated total (1 byte) is below the downloaded bytes
    (2), as yt-dlp estimates may be. -/
def overPayload : Payload := ⟨some "downloading", none, some 1, some 2, none, none⟩

/-- C6 counterexample: the hook emits percent 200 on overPayload, so the
    emitted percent does not always lie in [0,100]. -/
theorem percent_range_counterexample :
    hook false overPayload = Except.ok [Event.progress 200 "200.0%"] ∧ ¬((200 : ℚ) ≤ 100) := by
  constructor
  · have ht : pyTotal overPayload = 1 := rfl
    have hg : pyGot overPayload = 2 := rfl
    have h1 : pyPct overPayload = 200 := by
      unfold pyPct
      rw [ht, hg]
      norm_num
    have hf : fmt1 200 = "200.0" := by
      unfold fmt1
      have hr : roundHalfEven ((200 : ℚ) * 10) = 2000 := by
        unfold roundHalfEven
        norm_num
      rw [hr]
      norm_num
      decide
    have h2 : pyTxt overPayload = "200.0%" := by
      simp only [pyTxt]
      rw [h1, hf]
      have hst : speedTruthy overPayload = false := rfl
      have het : etaTruthy overPayload = false := rfl
      rw [hst, het]
      simp only [Bool.false_eq_true, if_false]
      decide
    have h3 : hook false overPayload =
        Except.ok [Event.progress (pyPct overPayload) (pyTxt overPayload)] := by
      simp [hook, overPayload]
    rw [h3, h1, h2]
  · norm_num

theorem pyPct_nonneg (d : Payload) : 0 ≤ pyPct d := by
  unfold pyPct
  split
  · positivity
  · exact le_refl 0

theorem pyPct_zero_of_total_zero (d : Payload) (h : pyTotal d = 0) : pyPct d = 0 := by
  unfold pyPct
  rw [if_neg (by simp [h])]

theorem pyPct_le_100 (d : Payload) (h : pyGot d ≤ pyTotal d) : pyPct d ≤ 100 := by
  unfold pyPct
  split
  · rename_i hT
    have hTpos : (0 : ℚ) < (pyTotal d : ℚ) := by
      exact_mod_cast Nat.pos_of_ne_zero hT
    have hdiv : (pyGot d : ℚ) / (pyTotal d : ℚ) ≤ 1 := by
      rw [div_le_one hTpos]
      exact_mod_cast h
    linarith
  · norm_num

/-- C6 amended: every percent the hook emits is nonnegative (the exact
    rational model has no NaN); on a downloading payload whose effective
    total is unknown (non-truthy) the percent is exactly 0; and the percent
    is at most 100 whenever the downloaded byte count does not exceed the
    effective total. The original unconditional upper bound of 100 fails
    exactly when downloaded bytes exceed an underestimated total. -/
theorem percent_range_amended (stop : Bool) (d : Payload) (evs : List Event) (pct : ℚ)
    (msg : String) (hok : hook stop d = Except.ok evs)
    (hmem : Event.progress pct msg ∈ evs) :
    0 ≤ pct ∧ (d.status = some "downloading" → pyTotal d = 0 → pct = 0) ∧
    (pyGot d ≤ pyTotal d → pct ≤ 100) := by
  cases stop with
  | true => simp [hook] at hok
  | false =>
    by_cases h1 : d.status = some "downloading"
    · simp only [hook, Bool.false_eq_true, if_false, h1, eq_self_iff_true, if_true,
        Except.ok.injEq] at hok
      subst hok
      simp only [List.mem_singleton, Event.progress.injEq] at hmem
      obtain ⟨hpct, hmsg⟩ := hmem
      subst hpct
      exact ⟨pyPct_nonneg d, fun _ h => pyPct_zero_of_total_zero d h,
        fun h => pyPct_le_100 d h⟩
    · by_cases h2 : d.status = some "finished"
      · simp only [hook, Bool.false_eq_true, if_false, h1, if_true, eq_self_iff_true,
          Except.ok.injEq] at hok
        rw [if_pos h2] at hok
        rw [Except.ok.injEq] at hok
        subst hok
        simp only [List.mem_singleton, Event.progress.injEq] at hmem
        obtain ⟨hpct, hmsg⟩ := hmem
        subst hpct
        refine ⟨by norm_num, fun hd => absurd hd h1, fun _ => by norm_num⟩
      · simp only [hook, Bool.false_eq_true, if_false, h1, h2, Except.ok.injEq] at hok
        subst hok
        cases hmem

/-- C6 amended witness: the bounds at a concrete mid-download payload. -/
theorem percent_range_amended_witness :
    0 ≤ pyPct wPayloadDl ∧
    (wPayloadDl.status = some "downloading" → pyTotal wPayloadDl = 0 → pyPct wPayloadDl = 0) ∧
    (pyGot wPayloadDl ≤ pyTotal wPayloadDl → pyPct wPayloadDl ≤ 100) :=
  percent_range_amended false wPayloadDl
    [Event.progress (pyPct wPayloadDl) (pyTxt wPayloadDl)]
    (pyPct wPayloadDl) (pyTxt wPayloadDl)
    (by simp [hook, wPayloadDl]) (by simp)

theorem videoLoop_oneTerminal (stopSeq : Nat → Bool) (client : String → CallSpec)
    (fex : String → Bool) :
    ∀ (cands : List String) (i : Nat) (last : Option String),
      OneTerminalLast (runVideoLoop stopSeq client fex i last cands).2 := by
  intro cands
  induction cands with
  | nil =>
    intro i last
    exact ⟨[], Event.failed (clean_err (last.getD "No fue posible descargar el vídeo.")),
      rfl, rfl, fun x hx => absurd hx (List.not_mem_nil x)⟩
  | cons fmt rest ih =>
    intro i last
    simp only [runVideoLoop]
    cases hres : (runClient stopSeq i (client fmt)).2.2 with
    | ok filename =>
      dsimp only
      refine ⟨(runClient stopSeq i (client fmt)).1, _, rfl, rfl, ?_⟩
      intro x hx
      exact runClient_progressOnly stopSeq i (client fmt) x hx
    | error e =>
      dsimp only
      by_cases hret : retryableErr e = true
      · rw [if_pos hret]
        dsimp only
        obtain ⟨pre, ev, heq, hterm, hpre⟩ :=
          ih (runClient stopSeq i (client fmt)).2.1 (some e)
        refine ⟨(runClient stopSeq i (client fmt)).1 ++ pre, ev, ?_, hterm, ?_⟩
        · rw [heq, List.append_assoc]
        · intro x hx
          rcases List.mem_append.mp hx with h | h
          · exact runClient_progressOnly stopSeq i (client fmt) x h
          · exact hpre x h
      · rw [if_neg hret]
        dsimp only
        refine ⟨(runClient stopSeq i (client fmt)).1, _, rfl, rfl, ?_⟩
        intro x hx
        exact runClient_progressOnly stopSeq i (client fmt) x hx

/-- C1: for every job of any kind, under any cancellation-flag behavior and
    any client behavior, the run emits exactly one terminal event
    (done or failed), it is the last event, and every event before it is a
    progress event. -/
theorem run_emits_one_terminal (stopSeq : Nat → Bool) (kind : String) (o : Oracle) :
    OneTerminalLast (Downloader.run stopSeq kind o) := by
  unfold Downloader.run
  by_cases hk : kind = "audio"
  · rw [if_pos hk]
    simp only [runAudio]
    cases hres : (runClient stopSeq 0 o.audioCall).2.2 with
    | error e =>
      dsimp only
      refine ⟨(runClient stopSeq 0 o.audioCall).1, _, rfl, rfl, ?_⟩
      intro x hx
      exact runClient_progressOnly stopSeq 0 o.audioCall x hx
    | ok filename =>
      dsimp only
      cases hf : audioExts.find? (fun ext => o.fex ((splitext filename).1 ++ ext)) with
      | some ext =>
        dsimp only
        refine ⟨(runClient stopSeq 0 o.audioCall).1, _, rfl, rfl, ?_⟩
        intro x hx
        exact runClient_progressOnly stopSeq 0 o.audioCall x hx
      | none =>
        dsimp only
        refine ⟨(runClient stopSeq 0 o.audioCall).1, _, rfl, rfl, ?_⟩
        intro x hx
        exact runClient_progressOnly stopSeq 0 o.audioCall x hx
  · rw [if_neg hk]
    exact videoLoop_oneTerminal stopSeq o.videoCall o.fex format_candidates 0 none

theorem hook_cancel (d : Payload) : hook true d = Except.error cancelMsg := rfl

theorem runClient_cancelled (stopSeq : Nat → Bool) (hstop : ∀ i, stopSeq i = true)
    (i : Nat) (c : CallSpec) (hne : c.payloads ≠ []) :
    runClient stopSeq i c = ([], i + 1, Except.error cancelMsg) := by
  cases hp : c.payloads with
  | nil => exact absurd hp hne
  | cons d ds =>
    have hph : processHooks stopSeq i (d :: ds) = ([], i + 1, some cancelMsg) := by
      simp only [processHooks, hstop i]
      rfl
    simp only [runClient, hp, hph]

/-- C2: the cancellation flag is checked first on every hook invocation —
    with the flag set the hook signals the cancellation error whatever the
    payload holds, before any percent computation — and a run of either
    kind whose flag is set throughout and whose first client call delivers
    at least one progress payload emits exactly the single Failed outcome
    with the cancellation message: no Completed outcome is possible. -/
theorem cancel_flag_checked_first :
    (∀ d : Payload, hook true d = Except.error cancelMsg) ∧
    (∀ (kind : String) (o : Oracle) (stopSeq : Nat → Bool),
      (∀ i, stopSeq i = true) → (firstCall kind o).payloads ≠ [] →
      Downloader.run stopSeq kind o = [Event.failed cancelMsg]) := by
  constructor
  · intro d
    exact hook_cancel d
  · intro kind o stopSeq hstop hne
    have hclean : clean_err cancelMsg = cancelMsg := by decide
    unfold Downloader.run
    by_cases hk : kind = "audio"
    · rw [if_pos hk]
      unfold firstCall at hne
      rw [if_pos hk] at hne
      simp only [runAudio, runClient_cancelled stopSeq hstop 0 o.audioCall hne]
      rw [hclean]
      rfl
    · rw [if_neg hk]
      unfold firstCall at hne
      rw [if_neg hk] at hne
      have hc0 : format_candidates.getD 0 "" =
          "bestvideo[ext=mp4]+bestaudio[ext=m4a]/best[ext=mp4]" := rfl
      rw [hc0] at hne
      have hloop := runClient_cancelled stopSeq hstop 0
        (o.videoCall "bestvideo[ext=mp4]+bestaudio[ext=m4a]/best[ext=mp4]") hne
      simp only [format_candidates, runVideoLoop, hloop]
      rw [if_neg (by decide : ¬retryableErr cancelMsg = true)]
      dsimp only
      rw [hclean]
      rfl

/-- C2 witness oracle: one downloading payload on every call. -/
def wCancelOracle : Oracle :=
  ⟨⟨[⟨some "downloading", some 10, none, some 5, none, none⟩], Except.ok "/m/a.webm"⟩,
   fun _ => ⟨[⟨some "downloading", some 10, none, some 5, none, none⟩], Except.ok "/m/a.mkv"⟩,
   fun _ => false⟩

/-- C2 witness: an audio run with the flag set from the start fails with
    the cancellation message. -/
theorem cancel_flag_checked_first_witness :
    Downloader.run (fun _ => true) "audio" wCancelOracle = [Event.failed cancelMsg] :=
  cancel_flag_checked_first.2 "audio" wCancelOracle (fun _ => true)
    (fun _ => rfl) (by simp [firstCall, wCancelOracle])

theorem retryableCall_elim (c : CallSpec) (h : retryableCall c = true) :
    ∃ e, c.result = Except.error e ∧ retryableErr e = true := by
  cases hr : c.result with
  | ok f => simp [retryableCall, hr] at h
  | error e =>
    refine ⟨e, rfl, ?_⟩
    simpa [retryableCall, hr] using h

theorem okCall_elim (c : CallSpec) (h : okCall c = true) :
    ∃ f, c.result = Except.ok f := by
  cases hr : c.result with
  | ok f => exact ⟨f, rfl⟩
  | error e => simp [okCall, hr] at h

theorem videoLoop_fallback (stopSeq : Nat → Bool) (client : String → CallSpec)
    (fex : String → Bool) (hs : ∀ j, stopSeq j = false) :
    ∀ (cands : List String) (i : Nat) (last : Option String) (N : Nat),
      1 ≤ N → N ≤ cands.length →
      (∀ fmt ∈ cands.take (N - 1), retryableCall (client fmt) = true) →
      okCall (client (cands.getD (N - 1) "")) = true →
      (runVideoLoop stopSeq client fex i last cands).1 = cands.take N ∧
      ∃ pre path, (runVideoLoop stopSeq client fex i last cands).2 =
        pre ++ [Event.done path] := by
  intro cands
  induction cands with
  | nil =>
    intro i last N h1 hlen hfail hok
    exact absurd (Nat.le_trans h1 hlen) (by norm_num)
  | cons fmt rest ih =>
    intro i last N h1 hlen hfail hok
    cases N with
    | zero => omega
    | succ m =>
      cases m with
      | zero =>
        obtain ⟨f, hf⟩ := okCall_elim _ hok
        have hres : (runClient stopSeq i (client fmt)).2.2 = Except.ok f := by
          rw [runClient_noCancel stopSeq hs i (client fmt)]
          exact hf
        simp only [runVideoLoop]
        rw [hres]
        dsimp only
        exact ⟨rfl, (runClient stopSeq i (client fmt)).1, _, rfl⟩
      | succ m =>
        have hhead : retryableCall (client fmt) = true :=
          hfail fmt (List.mem_cons_self fmt _)
        obtain ⟨e, hre, hrr⟩ := retryableCall_elim (client fmt) hhead
        have hres : (runClient stopSeq i (client fmt)).2.2 = Except.error e := by
          rw [runClient_noCancel stopSeq hs i (client fmt)]
          exact hre
        simp only [runVideoLoop]
        rw [hres]
        dsimp only
        rw [if_pos hrr]
        dsimp only
        have ihr := ih (runClient stopSeq i (client fmt)).2.1 (some e) (m + 1)
          (by omega) (by simpa using Nat.succ_le_succ_iff.mp hlen)
          (fun g hg => hfail g (List.mem_cons_of_mem fmt hg)) hok
        obtain ⟨ha, pre, path, hev⟩ := ihr
        constructor
        · rw [List.take_succ_cons, ha]
        · exact ⟨(runClient stopSeq i (client fmt)).1 ++ pre, path,
            by rw [hev, List.append_assoc]⟩

/-- C3: a video-kind job whose first N-1 format candidates fail with errors
    classified as retryable (format-unavailable or forbidden, by substring)
    and whose Nth candidate succeeds attempts exactly the first N declared
    candidates, in declared order, and ends in a done event. -/
theorem video_format_fallback (o : Oracle) (stopSeq : Nat → Bool) (N : Nat)
    (hstop : ∀ i, stopSeq i = false) (h1 : 1 ≤ N) (hN : N ≤ format_candidates.length)
    (hfail : ∀ fmt ∈ format_candidates.take (N - 1), retryableCall (o.videoCall fmt) = true)
    (hok : okCall (o.videoCall (format_candidates.getD (N - 1) "")) = true) :
    (runVideoLoop stopSeq o.videoCall o.fex 0 none format_candidates).1 =
      format_candidates.take N ∧
    ∃ pre path, Downloader.run stopSeq "video" o = pre ++ [Event.done path] := by
  have h := videoLoop_fallback stopSeq o.videoCall o.fex hstop format_candidates
    0 none N h1 hN hfail hok
  have hrun : Downloader.run stopSeq "video" o =
      (runVideoLoop stopSeq o.videoCall o.fex 0 none format_candidates).2 := by
    unfold Downloader.run
    rw [if_neg (by decide : ¬("video" = "audio"))]
  rw [hrun]
  exact h

/-- C3 witness oracle: the first candidate fails with the format-unavailable
    text, every other candidate succeeds. -/
def wFallbackOracle : Oracle :=
  ⟨⟨[], Except.ok "/m/a.webm"⟩,
   fun fmt =>
     if fmt = "bestvideo[ext=mp4]+bestaudio[ext=m4a]/best[ext=mp4]" then
       ⟨[], Except.error "Requested format is not available"⟩
     else ⟨[], Except.ok "/v/video [id].mkv"⟩,
   fun _ => false⟩

/-- C3 witness: N = 2 on the concrete oracle. -/
theorem video_format_fallback_witness :
    (runVideoLoop (fun _ => false) wFallbackOracle.videoCall wFallbackOracle.fex 0 none
      format_candidates).1 = format_candidates.take 2 ∧
    ∃ pre path, Downloader.run (fun _ => false) "video" wFallbackOracle =
      pre ++ [Event.done path] :=
  video_format_fallback wFallbackOracle (fun _ => false) 2 (fun _ => rfl)
    (by decide) (by decide) (by decide) (by decide)

/-- C4: a video-kind job whose first candidate fails with an error not
    classified as retryable emits Failed at once with the sanitized error
    text — only progress events precede it — and attempts no further
    candidate. -/
theorem video_nonretryable_fails_fast (o : Oracle) (stopSeq : Nat → Bool) (e : String)
    (hstop : ∀ i, stopSeq i = false)
    (he : (o.videoCall (format_candidates.getD 0 "")).result = Except.error e)
    (hnr : retryableErr e = false) :
    (runVideoLoop stopSeq o.videoCall o.fex 0 none format_candidates).1 =
      format_candidates.take 1 ∧
    ∃ pre, Downloader.run stopSeq "video" o = pre ++ [Event.failed (clean_err e)] ∧
      ∀ x ∈ pre, x.isTerminal = false := by
  have hc0 : format_candidates.getD 0 "" =
      "bestvideo[ext=mp4]+bestaudio[ext=m4a]/best[ext=mp4]" := rfl
  rw [hc0] at he
  have hres : (runClient stopSeq 0
      (o.videoCall "bestvideo[ext=mp4]+bestaudio[ext=m4a]/best[ext=mp4]")).2.2 =
      Except.error e := by
    rw [runClient_noCancel stopSeq hstop 0 _]
    exact he
  have hrun : Downloader.run stopSeq "video" o =
      (runVideoLoop stopSeq o.videoCall o.fex 0 none format_candidates).2 := by
    unfold Downloader.run
    rw [if_neg (by decide : ¬("video" = "audio"))]
  constructor
  · simp only [format_candidates, runVideoLoop]
    rw [hres]
    dsimp only
    rw [if_neg (by simp [hnr])]
    rfl
  · rw [hrun]
    simp only [format_candidates, runVideoLoop]
    rw [hres]
    dsimp only
    rw [if_neg (by simp [hnr])]
    dsimp only
    refine ⟨_, rfl, ?_⟩
    intro x hx
    exact runClient_progressOnly stopSeq 0 _ x hx

/-- C4 witness oracle: every video call fails with a disk-full error. -/
def wDiskFullOracle : Oracle :=
  ⟨⟨[], Except.ok "/m/a.webm"⟩,
   fun _ => ⟨[], Except.error "No space left on device"⟩,
   fun _ => false⟩

/-- C4 witness: the disk-full error ends the run after one candidate. -/
theorem video_nonretryable_fails_fast_witness :
    (runVideoLoop (fun _ => false) wDiskFullOracle.videoCall wDiskFullOracle.fex 0 none
      format_candidates).1 = format_candidates.take 1 ∧
    ∃ pre, Downloader.run (fun _ => false) "video" wDiskFullOracle =
      pre ++ [Event.failed (clean_err "No space left on device")] ∧
      ∀ x ∈ pre, x.isTerminal = false :=
  video_nonretryable_fails_fast wDiskFullOracle (fun _ => false) "No space left on device"
    (fun _ => rfl) rfl (by decide)

/-- C7: an audio-kind job whose client call succeeds resolves the final file
    by checking .mp3, .m4a, .webm in that order; when the .mp3 candidate is
    absent and the .m4a candidate exists (the .webm one absent as well), the
    done event carries the .m4a path. -/
theorem audio_output_resolution (o : Oracle) (stopSeq : Nat → Bool) (fname : String)
    (hstop : ∀ i, stopSeq i = false)
    (hres : o.audioCall.result = Except.ok fname)
    (hmp3 : o.fex ((splitext fname).1 ++ ".mp3") = false)
    (hm4a : o.fex ((splitext fname).1 ++ ".m4a") = true)
    (hwebm : o.fex ((splitext fname).1 ++ ".webm") = false) :
    ∃ pre, Downloader.run stopSeq "audio" o =
      pre ++ [Event.done ((splitext fname).1 ++ ".m4a")] ∧
      ∀ x ∈ pre, x.isTerminal = false := by
  have hcall : (runClient stopSeq 0 o.audioCall).2.2 = Except.ok fname := by
    rw [runClient_noCancel stopSeq hstop 0 o.audioCall]
    exact hres
  have hrun : Downloader.run stopSeq "audio" o = runAudio stopSeq o.audioCall o.fex := by
    unfold Downloader.run
    rw [if_pos rfl]
  rw [hrun]
  simp only [runAudio]
  rw [hcall]
  dsimp only
  have hfind : audioExts.find? (fun ext => o.fex ((splitext fname).1 ++ ext)) =
      some ".m4a" := by
    simp [audioExts, List.find?, hmp3, hm4a]
  rw [hfind]
  dsimp only
  refine ⟨(runClient stopSeq 0 o.audioCall).1, rfl, ?_⟩
  intro x hx
  exact runClient_progressOnly stopSeq 0 o.audioCall x hx

/-- C7 witness oracle: the client produces a .webm name; only the .m4a file
    exists on disk. -/
def wAudioOracle : Oracle :=
  ⟨⟨[], Except.ok "/m/Song [id].webm"⟩,
   fun _ => ⟨[], Except.ok "/m/x.mkv"⟩,
   fun s => s == "/m/Song [id].m4a"⟩

/-- C7 witness: done carries the .m4a path. -/
theorem audio_output_resolution_witness :
    ∃ pre, Downloader.run (fun _ => false) "audio" wAudioOracle =
      pre ++ [Event.done ((splitext "/m/Song [id].webm").1 ++ ".m4a")] ∧
      ∀ x ∈ pre, x.isTerminal = false :=
  audio_output_resolution wAudioOracle (fun _ => false) "/m/Song [id].webm"
    (fun _ => rfl) rfl (by decide) (by decide) (by decide)
